import Mathlib

/-!
Verification of the event-recording path of the statsd telemetry pipeline,
a shallow embedding of `src/statsd/src/metrics/EventMetricProducer.cpp`.

The producer stores accepted occurrences either in a raw, eagerly serialized
proto buffer (`mProto`, when the `mUseAtomAggregation` boot flag is false) or
in a dimension-keyed timestamp map (`mAggregatedAtoms`, when the flag is
true).  The proto output stream is modelled at the granularity of the stream
operations the source performs: each completed field (a scalar write or a
balanced `start`/`end` region together with everything written inside it) is
one node of the `PV` tree, and a stream buffer is a list of such nodes in
write order.

External collaborators that are not part of this repository's source under
`src/` are kept abstract: the timestamp truncation policy
(`truncateTimestampIfNecessary`, a pure function of the occurrence), the
occurrence's own proto encoding (`LogEvent::ToProto`), and the dimension-key
field-value tree writer (`writeFieldValueTreeToStream`) are universally
quantified parameters of the operations that invoke them; the process-wide
`StatsdStats` drop-count registry is modelled as an association list from
metric identifier to counter.
-/

set_option linter.unusedVariables false

namespace Statsd

/-- A single typed field value carried by an occurrence (`FieldValue`):
booleans, 32- and 64-bit integers, floats (modelled by their bit pattern) and
strings.  Equality is structural. -/
inductive FieldValue where
  | boolV (b : Bool)
  | intV (v : Int)
  | longV (v : Int)
  | floatBits (bits : Nat)
  | stringV (s : String)
  deriving DecidableEq, Repr

/-- `HashableDimensionKey`: an ordered vector of field values, compared
structurally. -/
structure HashableDimensionKey where
  values : List FieldValue
  deriving DecidableEq, Repr

/-- `AtomDimensionKey`: the atom type tag plus the occurrence's field values.
Built at intake in grouped mode as
`AtomDimensionKey(event.GetTagId(), HashableDimensionKey(event.getValues()))`. -/
structure AtomDimensionKey where
  atomTag : Int
  atomFieldValues : HashableDimensionKey
  deriving DecidableEq, Repr

/-- An occurrence (`LogEvent`): atom tag id, ordered field values and the
native elapsed timestamp. The core only reads it. -/
structure LogEvent where
  tagId : Int
  values : List FieldValue
  elapsedTimestampNs : Int
  deriving DecidableEq, Repr

/-- One completed field of a `ProtoOutputStream` buffer, at the granularity of
the stream operations performed by `EventMetricProducer.cpp`: an int64 scalar
write, a bool scalar write, or a complete nested message region (a matched
`start`/`end` pair with everything written between them, or a
`write(FIELD_TYPE_MESSAGE, buf, size)` call copying an already serialized
buffer as the region's content).  A stream buffer is a `List PV` in write
order. -/
inductive PV where
  | i64 (fieldId : Nat) (v : Int)
  | boolF (fieldId : Nat) (b : Bool)
  | msg (fieldId : Nat) (content : List PV)

mutual

/-- Committed byte count of one field in the stream buffer (the contribution
to `ProtoOutputStream::bytesWritten()`): a tag byte plus the payload, with a
fixed-width model for scalars and a tag byte plus a length byte plus the
content for a nested region.  Every field costs at least one byte, which is
the only property the source-level claims depend on. -/
def pvSize : PV → Nat
  | .i64 _ _ => 9
  | .boolF _ _ => 2
  | .msg _ content => 2 + pvsSize content

/-- Committed byte count of a whole stream buffer
(`ProtoOutputStream::bytesWritten()` / the emptiness test of
`ProtoOutputStream::size()`). -/
def pvsSize : List PV → Nat
  | [] => 0
  | t :: ts => pvSize t + pvsSize ts

end

-- StatsLogReport field ids
def FIELD_ID_ID : Nat := 1
def FIELD_ID_EVENT_METRICS : Nat := 4
def FIELD_ID_IS_ACTIVE : Nat := 14
-- EventMetricDataWrapper field ids
def FIELD_ID_DATA : Nat := 1
-- EventMetricData field ids
def FIELD_ID_ELAPSED_TIMESTAMP_NANOS : Nat := 1
def FIELD_ID_ATOMS : Nat := 2
def FIELD_ID_AGGREGATED_ATOM : Nat := 4
-- AggregatedAtomInfo field ids
def FIELD_ID_ATOM : Nat := 1
def FIELD_ID_ATOM_TIMESTAMPS : Nat := 2

/-- The field tag a buffer node was written under. -/
def pvFieldId : PV → Nat
  | .i64 f _ => f
  | .boolF f _ => f
  | .msg f _ => f

/-- The mutable state of one `EventMetricProducer`: its metric identifier, the
construction-time `mUseAtomAggregation` flag, the pending raw serialization
buffer `mProto` and the grouped map `mAggregatedAtoms` (an association list in
insertion order; the C++ `unordered_map` iterates in an unspecified but
per-instance deterministic order, which the claims do not depend on). -/
structure EventMetricProducer where
  metricId : Int
  useAtomAggregation : Bool
  proto : List PV
  aggregatedAtoms : List (AtomDimensionKey × List Int)

/-- A freshly constructed producer: both representations start empty. -/
def newEventMetricProducer (metricId : Int) (useAtomAggregation : Bool) :
    EventMetricProducer :=
  { metricId := metricId, useAtomAggregation := useAtomAggregation,
    proto := [], aggregatedAtoms := [] }

/-- `mAggregatedAtoms[key].push_back(t)`: look the key up, default-construct an
empty vector if absent, append the timestamp to its vector. -/
def appendTs (m : List (AtomDimensionKey × List Int)) (k : AtomDimensionKey)
    (t : Int) : List (AtomDimensionKey × List Int) :=
  match m with
  | [] => [(k, [t])]
  | (k1, ts) :: rest =>
      if k1 = k then (k1, ts ++ [t]) :: rest else (k1, ts) :: appendTs rest k t

/-- Read-only lookup of a key's timestamp vector in the grouped map. -/
def lookupTs (m : List (AtomDimensionKey × List Int)) (k : AtomDimensionKey) :
    Option (List Int) :=
  match m with
  | [] => none
  | (k1, ts) :: rest => if k1 = k then some ts else lookupTs rest k

/-- The dimension key the grouped intake path builds for an occurrence. -/
def keyOf (e : LogEvent) : AtomDimensionKey :=
  { atomTag := e.tagId, atomFieldValues := { values := e.values } }

/-- The block of buffer nodes an accepted occurrence appends to `mProto` in
raw mode: a repeated "data" region holding the truncated elapsed timestamp and
a nested "atom" region with the occurrence's own encoding `enc e`
(`LogEvent::ToProto`). -/
def rawBlock (tr : LogEvent → Int) (enc : LogEvent → List PV) (e : LogEvent) :
    PV :=
  PV.msg FIELD_ID_DATA
    [PV.i64 FIELD_ID_ELAPSED_TIMESTAMP_NANOS (tr e),
     PV.msg FIELD_ID_ATOMS (enc e)]

/-- `EventMetricProducer::onMatchedLogEventInternalLocked`, parametric in the
external truncation policy `tr` (`truncateTimestampIfNecessary`) and the
occurrence's own encoder `enc` (`LogEvent::ToProto`).  If the condition is not
met, return unchanged; otherwise append to `mProto` (raw mode) or push the
truncated timestamp onto the key's vector in `mAggregatedAtoms` (grouped
mode). -/
def onMatchedLogEventInternalLocked (tr : LogEvent → Int)
    (enc : LogEvent → List PV) (p : EventMetricProducer) (condition : Bool)
    (event : LogEvent) : EventMetricProducer :=
  if condition = false then p
  else if p.useAtomAggregation = false then
    { p with proto := p.proto ++ [rawBlock tr enc event] }
  else
    { p with aggregatedAtoms := appendTs p.aggregatedAtoms (keyOf event) (tr event) }

/-- Accept a list of occurrences in order, all with the condition met. -/
def intakeAll (tr : LogEvent → Int) (enc : LogEvent → List PV)
    (p : EventMetricProducer) (events : List LogEvent) : EventMetricProducer :=
  events.foldl (fun q e => onMatchedLogEventInternalLocked tr enc q true e) p

/-- The process-wide `StatsdStats` drop-count registry: metric identifier to
number of dropped buckets. -/
abbrev StatsdStatsReg : Type := List (Int × Nat)

/-- `StatsdStats::noteBucketDropped(metricId)`: bump the counter for the given
metric identifier. -/
def noteBucketDropped (s : StatsdStatsReg) (metricId : Int) : StatsdStatsReg :=
  match s with
  | [] => [(metricId, 1)]
  | (i, n) :: rest =>
      if i = metricId then (i, n + 1) :: rest
      else (i, n) :: noteBucketDropped rest metricId

/-- The current drop count recorded for a metric identifier. -/
def bucketDropCount (s : StatsdStatsReg) (metricId : Int) : Nat :=
  match s with
  | [] => 0
  | (i, n) :: rest => if i = metricId then n else bucketDropCount rest metricId

/-- `EventMetricProducer::dropDataLocked`: clear the proto buffer and the
grouped map, and note a dropped bucket in the external registry. -/
def dropDataLocked (p : EventMetricProducer) (stats : StatsdStatsReg) :
    EventMetricProducer × StatsdStatsReg :=
  ({ p with proto := [], aggregatedAtoms := [] },
   noteBucketDropped stats p.metricId)

/-- `EventMetricProducer::clearPastBucketsLocked`: clear the proto buffer and
the grouped map; no registry side effect. -/
def clearPastBucketsLocked (p : EventMetricProducer) : EventMetricProducer :=
  { p with proto := [], aggregatedAtoms := [] }

/-- The "data" region emitted at dump time for one grouped-map entry: a nested
"aggregated-atom" region holding an "atom" region with the key's field-value
tree (written by the external `writeFieldValueTreeToStream`, parameter `wfvt`)
followed by the entry's timestamps as a repeated int64 field. -/
def groupedRegion (wfvt : Int → List FieldValue → List PV)
    (kv : AtomDimensionKey × List Int) : PV :=
  PV.msg FIELD_ID_DATA
    [PV.msg FIELD_ID_AGGREGATED_ATOM
      (PV.msg FIELD_ID_ATOM (wfvt kv.1.atomTag kv.1.atomFieldValues.values) ::
       kv.2.map (fun t => PV.i64 FIELD_ID_ATOM_TIMESTAMPS t))]

/-- `EventMetricProducer::onDumpReportLocked`, parametric in the external
field-value tree writer `wfvt` and the `isActiveLocked()` flag supplied by the
activation machinery.  Returns the nodes appended to the caller's output
stream and the producer state after the call.  The metric id and the isActive
flag are written first; in raw mode an empty pending buffer then returns
early, otherwise the buffer is serialized and copied as the content of the
`eventMetrics` field and cleared when `eraseData` is set; in grouped mode the
`eventMetrics` region is always opened and closed, with one "data" region per
map entry. -/
def onDumpReportLocked (wfvt : Int → List FieldValue → List PV)
    (isActiveFlag : Bool) (eraseData : Bool) (p : EventMetricProducer) :
    List PV × EventMetricProducer :=
  let envelope := [PV.i64 FIELD_ID_ID p.metricId,
                   PV.boolF FIELD_ID_IS_ACTIVE isActiveFlag]
  if p.useAtomAggregation = false then
    if pvsSize p.proto ≤ 0 then (envelope, p)
    else
      (envelope ++ [PV.msg FIELD_ID_EVENT_METRICS p.proto],
       if eraseData then { p with proto := [] } else p)
  else
    (envelope ++
      [PV.msg FIELD_ID_EVENT_METRICS (p.aggregatedAtoms.map (groupedRegion wfvt))],
     if eraseData then { p with aggregatedAtoms := [] } else p)

/-- The compile-time `sizeof(FieldValue)` constant used by the grouped-mode
byte estimate: a fixed per-field-value cost. -/
def sizeofFieldValue : Nat := 48

/-- `sizeof(int64_t)`. -/
def sizeofInt64 : Nat := 8

/-- `EventMetricProducer::byteSizeLocked`: in grouped mode, accumulate over
the map entries `sizeof(FieldValue)` per field value of the key plus
`sizeof(int64_t)` per timestamp; in raw mode, return the bytes committed to
the pending buffer (`mProto->bytesWritten()`). -/
def byteSizeLocked (p : EventMetricProducer) : Nat :=
  if p.useAtomAggregation then
    p.aggregatedAtoms.foldl
      (fun totalSize kv =>
        totalSize + sizeofFieldValue * kv.1.atomFieldValues.values.length
          + sizeofInt64 * kv.2.length)
      0
  else
    pvsSize p.proto

/-- Whether any node of a stream buffer was written under the given field
tag. -/
def hasField (f : Nat) (out : List PV) : Bool :=
  out.any (fun pv => pvFieldId pv = f)

/-! ### Basic lemmas about the stream-buffer model -/

@[simp]
lemma pvsSize_nil : pvsSize [] = 0 := by
  simp [pvsSize]

@[simp]
lemma pvsSize_cons (t : PV) (ts : List PV) :
    pvsSize (t :: ts) = pvSize t + pvsSize ts := by
  simp [pvsSize]

lemma pvsSize_append (a b : List PV) :
    pvsSize (a ++ b) = pvsSize a + pvsSize b := by
  induction a with
  | nil => simp
  | cons t ts ih => simp [ih, Nat.add_assoc]

lemma pvSize_pos (t : PV) : 0 < pvSize t := by
  cases t <;> simp [pvSize]

lemma pvsSize_eq_zero_iff (ts : List PV) : pvsSize ts = 0 ↔ ts = [] := by
  cases ts with
  | nil => simp
  | cons t ts =>
      simp only [pvsSize_cons]
      constructor
      · intro h
        have := pvSize_pos t
        omega
      · intro h
        exact absurd h (List.cons_ne_nil t ts)

lemma pvsSize_pos_of_ne_nil (ts : List PV) (h : ts ≠ []) : 0 < pvsSize ts := by
  rcases Nat.eq_zero_or_pos (pvsSize ts) with h0 | h0
  · exact absurd ((pvsSize_eq_zero_iff ts).mp h0) h
  · exact h0

/-! ### Basic lemmas about the intake operation -/

lemma onMatched_true_raw (tr : LogEvent → Int) (enc : LogEvent → List PV)
    (p : EventMetricProducer) (e : LogEvent)
    (h : p.useAtomAggregation = false) :
    onMatchedLogEventInternalLocked tr enc p true e =
      { p with proto := p.proto ++ [rawBlock tr enc e] } := by
  simp [onMatchedLogEventInternalLocked, h]

lemma onMatched_true_grouped (tr : LogEvent → Int) (enc : LogEvent → List PV)
    (p : EventMetricProducer) (e : LogEvent)
    (h : p.useAtomAggregation = true) :
    onMatchedLogEventInternalLocked tr enc p true e =
      { p with aggregatedAtoms := appendTs p.aggregatedAtoms (keyOf e) (tr e) } := by
  simp [onMatchedLogEventInternalLocked, h]

@[simp]
lemma intakeAll_nil (tr : LogEvent → Int) (enc : LogEvent → List PV)
    (p : EventMetricProducer) : intakeAll tr enc p [] = p := rfl

lemma intakeAll_cons (tr : LogEvent → Int) (enc : LogEvent → List PV)
    (p : EventMetricProducer) (e : LogEvent) (es : List LogEvent) :
    intakeAll tr enc p (e :: es) =
      intakeAll tr enc (onMatchedLogEventInternalLocked tr enc p true e) es := rfl

/-- In raw mode, accepting a list of occurrences appends one raw block per
occurrence to the pending buffer, in acceptance order, and touches nothing
else. -/
lemma intakeAll_raw (tr : LogEvent → Int) (enc : LogEvent → List PV)
    (es : List LogEvent) (p : EventMetricProducer)
    (h : p.useAtomAggregation = false) :
    intakeAll tr enc p es =
      { p with proto := p.proto ++ es.map (rawBlock tr enc) } := by
  induction es generalizing p with
  | nil => simp
  | cons e es ih =>
      rw [intakeAll_cons, onMatched_true_raw tr enc p e h]
      rw [ih { p with proto := p.proto ++ [rawBlock tr enc e] } h]
      simp

/-- In grouped mode, accepting a list of occurrences folds the
key-and-truncated-timestamp append over the grouped map and touches nothing
else. -/
lemma intakeAll_grouped (tr : LogEvent → Int) (enc : LogEvent → List PV)
    (es : List LogEvent) (p : EventMetricProducer)
    (h : p.useAtomAggregation = true) :
    intakeAll tr enc p es =
      { p with aggregatedAtoms :=
          es.foldl (fun acc e => appendTs acc (keyOf e) (tr e)) p.aggregatedAtoms } := by
  induction es generalizing p with
  | nil => simp
  | cons e es ih =>
      rw [intakeAll_cons, onMatched_true_grouped tr enc p e h]
      rw [ih { p with aggregatedAtoms := appendTs p.aggregatedAtoms (keyOf e) (tr e) } h]
      simp

/-! ### Claim C1 -/

/-- C1: an occurrence delivered to `onMatchedLogEventInternalLocked` with the
condition not met leaves the producer untouched, for any truncation policy,
any event encoder, any producer state (either mode) and any occurrence: the
whole state is unchanged, so in particular the pending raw serialization
buffer and the grouped map (keys and timestamp sequences) are identical
before and after. -/
theorem gate_conditionFalse_noop (tr : LogEvent → Int)
    (enc : LogEvent → List PV) (p : EventMetricProducer) (event : LogEvent) :
    onMatchedLogEventInternalLocked tr enc p false event = p ∧
    (onMatchedLogEventInternalLocked tr enc p false event).proto = p.proto ∧
    (onMatchedLogEventInternalLocked tr enc p false event).aggregatedAtoms =
      p.aggregatedAtoms := by
  refine ⟨?_, ?_, ?_⟩ <;> simp [onMatchedLogEventInternalLocked]

/-! ### Claim C2 -/

/-- C2: in raw mode, after accepting the occurrences `es` (all with the
condition met) starting from a fresh producer, a dump appends to the output
stream the metric id, the isActive flag, and an `eventMetrics` field whose
content is exactly one "data" region per accepted occurrence, in acceptance
order, the i-th region carrying the truncated elapsed timestamp `tr` of the
i-th occurrence followed by that occurrence's own encoding `enc` nested in an
"atom" region. -/
theorem rawMode_dump_structure (tr : LogEvent → Int) (enc : LogEvent → List PV)
    (wfvt : Int → List FieldValue → List PV) (metricId : Int)
    (act er : Bool) (es : List LogEvent) (hne : es ≠ []) :
    (onDumpReportLocked wfvt act er
        (intakeAll tr enc (newEventMetricProducer metricId false) es)).1 =
      [PV.i64 FIELD_ID_ID metricId, PV.boolF FIELD_ID_IS_ACTIVE act,
       PV.msg FIELD_ID_EVENT_METRICS
         (es.map (fun e =>
           PV.msg FIELD_ID_DATA
             [PV.i64 FIELD_ID_ELAPSED_TIMESTAMP_NANOS (tr e),
              PV.msg FIELD_ID_ATOMS (enc e)]))] := by
  rw [intakeAll_raw tr enc es (newEventMetricProducer metricId false) rfl]
  have hmap : es.map (rawBlock tr enc) ≠ [] := by
    simpa using hne
  have hpos := pvsSize_pos_of_ne_nil (es.map (rawBlock tr enc)) hmap
  have hguard : ¬ pvsSize (es.map (rawBlock tr enc)) ≤ 0 := by omega
  simp only [onDumpReportLocked, newEventMetricProducer]
  simp [hguard, rawBlock]

/-- Witness for C2 at a concrete input: one occurrence with atom tag 5, one
string field and timestamp 100, with the identity truncation policy and a
trivial encoder. -/
theorem rawMode_dump_structure_witness :
    (onDumpReportLocked (fun _ _ => []) true false
        (intakeAll (fun e => e.elapsedTimestampNs) (fun _ => [])
          (newEventMetricProducer 7 false)
          [{ tagId := 5, values := [FieldValue.stringV "x"],
             elapsedTimestampNs := 100 }])).1 =
      [PV.i64 FIELD_ID_ID 7, PV.boolF FIELD_ID_IS_ACTIVE true,
       PV.msg FIELD_ID_EVENT_METRICS
         [PV.msg FIELD_ID_DATA
           [PV.i64 FIELD_ID_ELAPSED_TIMESTAMP_NANOS 100,
            PV.msg FIELD_ID_ATOMS []]]] :=
  rawMode_dump_structure (fun e => e.elapsedTimestampNs) (fun _ => [])
    (fun _ _ => []) 7 true false
    [{ tagId := 5, values := [FieldValue.stringV "x"],
       elapsedTimestampNs := 100 }]
    (by simp)

/-! ### Lemmas about the grouped map -/

lemma lookupTs_appendTs (m : List (AtomDimensionKey × List Int))
    (k k2 : AtomDimensionKey) (t : Int) :
    lookupTs (appendTs m k t) k2 =
      if k2 = k then some (((lookupTs m k).getD []) ++ [t])
      else lookupTs m k2 := by
  induction m with
  | nil =>
      by_cases h : k2 = k
      · subst h; simp [appendTs, lookupTs]
      · have h2 : ¬ (k = k2) := fun hh => h hh.symm
        simp [appendTs, lookupTs, h, h2]
  | cons kv rest ih =>
      obtain ⟨k1, ts⟩ := kv
      by_cases h1 : k1 = k
      · subst h1
        by_cases h2 : k2 = k1
        · subst h2; simp [appendTs, lookupTs]
        · have h3 : ¬ (k1 = k2) := fun hh => h2 hh.symm
          simp [appendTs, lookupTs, h2, h3]
      · by_cases h3 : k1 = k2
        · subst h3
          simp [appendTs, lookupTs, h1]
        · simp [appendTs, lookupTs, h1, h3, ih]

lemma lookupTs_eq_none_iff (m : List (AtomDimensionKey × List Int))
    (k : AtomDimensionKey) :
    lookupTs m k = none ↔ k ∉ m.map Prod.fst := by
  induction m with
  | nil => simp [lookupTs]
  | cons kv rest ih =>
      obtain ⟨k1, ts⟩ := kv
      by_cases h : k1 = k
      · subst h; simp [lookupTs]
      · have h2 : ¬ (k = k1) := fun hh => h hh.symm
        simp only [lookupTs, if_neg h, List.map_cons, List.mem_cons]
        rw [ih]
        constructor
        · intro hn hmem
          rcases hmem with hmem | hmem
          · exact h2 hmem
          · exact hn hmem
        · intro hn hmem
          exact hn (Or.inr hmem)

lemma map_fst_appendTs (m : List (AtomDimensionKey × List Int))
    (k : AtomDimensionKey) (t : Int) :
    (appendTs m k t).map Prod.fst =
      if lookupTs m k = none then m.map Prod.fst ++ [k]
      else m.map Prod.fst := by
  induction m with
  | nil => simp [appendTs, lookupTs]
  | cons kv rest ih =>
      obtain ⟨k1, ts⟩ := kv
      by_cases h : k1 = k
      · subst h; simp [appendTs, lookupTs]
      · by_cases h2 : lookupTs rest k = none <;>
          simp [appendTs, lookupTs, h, h2, ih]

lemma nodup_map_fst_appendTs (m : List (AtomDimensionKey × List Int))
    (k : AtomDimensionKey) (t : Int) (h : (m.map Prod.fst).Nodup) :
    ((appendTs m k t).map Prod.fst).Nodup := by
  rw [map_fst_appendTs]
  by_cases h2 : lookupTs m k = none
  · have hk := (lookupTs_eq_none_iff m k).mp h2
    simp [h2, List.nodup_append, h, hk]
  · simp [h2, h]

/-- Folding grouped intake over a list of occurrences: the timestamps looked
up for a key afterwards are those present before followed by the truncated
timestamps of exactly the occurrences whose dimension key equals that key, in
acceptance order. -/
lemma foldl_appendTs_lookup (tr : LogEvent → Int) (es : List LogEvent)
    (m : List (AtomDimensionKey × List Int)) (k : AtomDimensionKey) :
    lookupTs (es.foldl (fun acc e => appendTs acc (keyOf e) (tr e)) m) k =
      match lookupTs m k with
      | some old => some (old ++ (es.filter (fun e => keyOf e = k)).map tr)
      | none =>
          if (es.filter (fun e => keyOf e = k)).isEmpty then none
          else some ((es.filter (fun e => keyOf e = k)).map tr) := by
  induction es generalizing m with
  | nil => cases h : lookupTs m k <;> simp [h]
  | cons e es ih =>
      simp only [List.foldl_cons]
      rw [ih, lookupTs_appendTs]
      by_cases hk : keyOf e = k
      · subst hk
        cases h : lookupTs m (keyOf e) <;> simp [h]
      · have hk2 : ¬ (k = keyOf e) := fun hh => hk hh.symm
        simp only [if_neg hk2, List.filter_cons, hk]
        simp [hk]

lemma foldl_appendTs_nodup (tr : LogEvent → Int) (es : List LogEvent)
    (m : List (AtomDimensionKey × List Int)) (h : (m.map Prod.fst).Nodup) :
    (((es.foldl (fun acc e => appendTs acc (keyOf e) (tr e)) m)).map
        Prod.fst).Nodup := by
  induction es generalizing m with
  | nil => exact h
  | cons e es ih => exact ih _ (nodup_map_fst_appendTs _ _ _ h)

/-! ### Claim C3 -/

/-- C3: in grouped mode, after accepting the occurrences `es` starting from a
fresh producer, the grouped map has no duplicate keys, a dimension key is
present exactly when some accepted occurrence maps to it, and the timestamp
sequence stored for a key consists of exactly the truncated timestamps of the
occurrences whose atom type and field values equal that key, in acceptance
order.  In particular two occurrences with identical atom type and field
values share one entry (two timestamps, acceptance order) and an occurrence
differing in atom type or in any field value lives in a distinct entry. -/
theorem groupedMode_merging (tr : LogEvent → Int) (enc : LogEvent → List PV)
    (metricId : Int) (es : List LogEvent) :
    (((intakeAll tr enc (newEventMetricProducer metricId true)
        es).aggregatedAtoms.map Prod.fst).Nodup) ∧
    (∀ k, k ∈ (intakeAll tr enc (newEventMetricProducer metricId true)
        es).aggregatedAtoms.map Prod.fst ↔
      ¬ (es.filter (fun e => keyOf e = k)).isEmpty) ∧
    (∀ k, lookupTs
        (intakeAll tr enc (newEventMetricProducer metricId true)
          es).aggregatedAtoms k =
      if (es.filter (fun e => keyOf e = k)).isEmpty then none
      else some ((es.filter (fun e => keyOf e = k)).map tr)) := by
  rw [intakeAll_grouped tr enc es _ rfl]
  simp only [newEventMetricProducer]
  refine ⟨foldl_appendTs_nodup tr es [] (by simp), fun k => ?_, fun k => ?_⟩
  · rw [← not_iff_not, not_not, ← lookupTs_eq_none_iff,
        foldl_appendTs_lookup tr es [] k]
    simp only [lookupTs]
    by_cases h : (es.filter (fun e => keyOf e = k)).isEmpty <;> simp [h]
  · rw [foldl_appendTs_lookup tr es [] k]
    simp only [lookupTs]

/-- Witness for C3: the concrete scenario of the specification — occurrence A
(atom 5, fields ["x"]) accepted at 100 and again at 200, occurrence B (atom 5,
fields ["y"]) accepted at 150 — yields entry A with timestamps [100, 200] and
entry B with [150]. -/
theorem groupedMode_merging_witness :
    lookupTs (intakeAll (fun e => e.elapsedTimestampNs) (fun _ => [])
        (newEventMetricProducer 7 true)
        [{ tagId := 5, values := [FieldValue.stringV "x"], elapsedTimestampNs := 100 },
         { tagId := 5, values := [FieldValue.stringV "x"], elapsedTimestampNs := 200 },
         { tagId := 5, values := [FieldValue.stringV "y"], elapsedTimestampNs := 150 }]).aggregatedAtoms
      { atomTag := 5, atomFieldValues := { values := [FieldValue.stringV "x"] } } =
        some [100, 200] ∧
    lookupTs (intakeAll (fun e => e.elapsedTimestampNs) (fun _ => [])
        (newEventMetricProducer 7 true)
        [{ tagId := 5, values := [FieldValue.stringV "x"], elapsedTimestampNs := 100 },
         { tagId := 5, values := [FieldValue.stringV "x"], elapsedTimestampNs := 200 },
         { tagId := 5, values := [FieldValue.stringV "y"], elapsedTimestampNs := 150 }]).aggregatedAtoms
      { atomTag := 5, atomFieldValues := { values := [FieldValue.stringV "y"] } } =
        some [150] := by
  have h := groupedMode_merging (fun e => e.elapsedTimestampNs) (fun _ => []) 7
    [{ tagId := 5, values := [FieldValue.stringV "x"], elapsedTimestampNs := 100 },
     { tagId := 5, values := [FieldValue.stringV "x"], elapsedTimestampNs := 200 },
     { tagId := 5, values := [FieldValue.stringV "y"], elapsedTimestampNs := 150 }]
  refine ⟨?_, ?_⟩
  · rw [h.2.2 { atomTag := 5, atomFieldValues := { values := [FieldValue.stringV "x"] } }]
    decide
  · rw [h.2.2 { atomTag := 5, atomFieldValues := { values := [FieldValue.stringV "y"] } }]
    decide

/-! ### Claim C4 -/

/-- C4: in raw mode with zero pending events, a dump still writes the metric
id field and the isActive field but writes no node under the `eventMetrics`
field tag at all; a raw dump with a non-empty pending buffer does write an
`eventMetrics` node, so the empty report is distinguishable from a non-empty
one. -/
theorem emptyRaw_dump_envelope_no_eventMetrics
    (wfvt : Int → List FieldValue → List PV) (act er : Bool)
    (p : EventMetricProducer) (hmode : p.useAtomAggregation = false)
    (hempty : p.proto = []) :
    (onDumpReportLocked wfvt act er p).1 =
      [PV.i64 FIELD_ID_ID p.metricId, PV.boolF FIELD_ID_IS_ACTIVE act] ∧
    hasField FIELD_ID_EVENT_METRICS (onDumpReportLocked wfvt act er p).1 =
      false ∧
    (∀ q : EventMetricProducer, q.useAtomAggregation = false → q.proto ≠ [] →
      hasField FIELD_ID_EVENT_METRICS (onDumpReportLocked wfvt act er q).1 =
        true) := by
  have h1 : (onDumpReportLocked wfvt act er p).1 =
      [PV.i64 FIELD_ID_ID p.metricId, PV.boolF FIELD_ID_IS_ACTIVE act] := by
    simp [onDumpReportLocked, hmode, hempty]
  refine ⟨h1, ?_, ?_⟩
  · rw [h1]
    simp [hasField, pvFieldId, FIELD_ID_ID, FIELD_ID_IS_ACTIVE,
      FIELD_ID_EVENT_METRICS]
  · intro q hq hqne
    have hpos := pvsSize_pos_of_ne_nil q.proto hqne
    have hguard : ¬ pvsSize q.proto ≤ 0 := by omega
    simp [onDumpReportLocked, hq, hguard, hasField, pvFieldId,
      FIELD_ID_EVENT_METRICS]

/-- Witness for C4: a fresh raw-mode producer dumps to the bare envelope with
no `eventMetrics` node, while a raw-mode producer with one pending node dumps
an `eventMetrics` node. -/
theorem emptyRaw_dump_envelope_no_eventMetrics_witness :
    (onDumpReportLocked (fun _ _ => []) true false
        (newEventMetricProducer 7 false)).1 =
      [PV.i64 FIELD_ID_ID 7, PV.boolF FIELD_ID_IS_ACTIVE true] ∧
    hasField FIELD_ID_EVENT_METRICS
      (onDumpReportLocked (fun _ _ => []) true false
        (newEventMetricProducer 7 false)).1 = false ∧
    hasField FIELD_ID_EVENT_METRICS
      (onDumpReportLocked (fun _ _ => []) true false
        { metricId := 7, useAtomAggregation := false,
          proto := [PV.i64 FIELD_ID_ELAPSED_TIMESTAMP_NANOS 5],
          aggregatedAtoms := [] }).1 = true := by
  have h := emptyRaw_dump_envelope_no_eventMetrics (fun _ _ => []) true false
    (newEventMetricProducer 7 false) rfl rfl
  exact ⟨h.1, h.2.1,
    h.2.2 { metricId := 7, useAtomAggregation := false,
            proto := [PV.i64 FIELD_ID_ELAPSED_TIMESTAMP_NANOS 5],
            aggregatedAtoms := [] } rfl (by simp)⟩

/-! ### Claim C5 -/

/-- C5 counterexample: dumping a fresh raw-mode producer (empty pending
buffer) does not leave the output stream empty — the metric id and isActive
fields are written before the early return, contradicting the claim that no
bytes at all are written. -/
theorem emptyRaw_dump_writes_envelope_cex :
    (onDumpReportLocked (fun _ _ => []) true true
        (newEventMetricProducer 7 false)).1 ≠ [] := by
  simp [onDumpReportLocked, newEventMetricProducer]

/-- C5 (amended): in raw mode with an empty pending buffer, dump returns
early having written only the metric id and isActive fields — in particular
no `eventMetrics` field — and the producer state is unchanged. -/
theorem emptyRaw_dump_early_return (wfvt : Int → List FieldValue → List PV)
    (act er : Bool) (p : EventMetricProducer)
    (hmode : p.useAtomAggregation = false) (hempty : p.proto = []) :
    (onDumpReportLocked wfvt act er p).1 =
      [PV.i64 FIELD_ID_ID p.metricId, PV.boolF FIELD_ID_IS_ACTIVE act] ∧
    (onDumpReportLocked wfvt act er p).2 = p := by
  constructor <;> simp [onDumpReportLocked, hmode, hempty]

/-- Witness for the amended C5 at a fresh raw-mode producer. -/
theorem emptyRaw_dump_early_return_witness :
    (onDumpReportLocked (fun _ _ => []) false true
        (newEventMetricProducer 3 false)).1 =
      [PV.i64 FIELD_ID_ID 3, PV.boolF FIELD_ID_IS_ACTIVE false] ∧
    (onDumpReportLocked (fun _ _ => []) false true
        (newEventMetricProducer 3 false)).2 =
      newEventMetricProducer 3 false :=
  emptyRaw_dump_early_return (fun _ _ => []) false true
    (newEventMetricProducer 3 false) rfl rfl

/-! ### Claim C6 -/

/-- C6: in grouped mode, a dump always writes the metric id, the isActive
flag and the `eventMetrics` region — even when the grouped map is empty — and
the region holds one "data" region per map entry, each nesting an
"aggregated-atom" region with the key's field-value tree in an "atom" region
followed by the entry's timestamps as a repeated scalar field. -/
theorem groupedMode_dump_structure (wfvt : Int → List FieldValue → List PV)
    (act er : Bool) (p : EventMetricProducer)
    (hmode : p.useAtomAggregation = true) :
    (onDumpReportLocked wfvt act er p).1 =
      [PV.i64 FIELD_ID_ID p.metricId, PV.boolF FIELD_ID_IS_ACTIVE act,
       PV.msg FIELD_ID_EVENT_METRICS
         (p.aggregatedAtoms.map (fun kv =>
           PV.msg FIELD_ID_DATA
             [PV.msg FIELD_ID_AGGREGATED_ATOM
               (PV.msg FIELD_ID_ATOM
                   (wfvt kv.1.atomTag kv.1.atomFieldValues.values) ::
                kv.2.map (fun t => PV.i64 FIELD_ID_ATOM_TIMESTAMPS t))]))] := by
  simp [onDumpReportLocked, hmode, groupedRegion]

/-- Witness for C6 at a fresh grouped-mode producer: the envelope and an
empty `eventMetrics` region are written even though the map is empty. -/
theorem groupedMode_dump_structure_witness :
    (onDumpReportLocked (fun _ _ => []) true false
        (newEventMetricProducer 9 true)).1 =
      [PV.i64 FIELD_ID_ID 9, PV.boolF FIELD_ID_IS_ACTIVE true,
       PV.msg FIELD_ID_EVENT_METRICS []] :=
  groupedMode_dump_structure (fun _ _ => []) true false
    (newEventMetricProducer 9 true) rfl

/-! ### Lemmas about the drop-count registry -/

lemma bucketDropCount_note_self (s : StatsdStatsReg) (i : Int) :
    bucketDropCount (noteBucketDropped s i) i = bucketDropCount s i + 1 := by
  induction s with
  | nil => simp [noteBucketDropped, bucketDropCount]
  | cons kv rest ih =>
      obtain ⟨j, n⟩ := kv
      by_cases h : j = i <;>
        simp [noteBucketDropped, bucketDropCount, h, ih]

lemma bucketDropCount_note_other (s : StatsdStatsReg) (i j : Int)
    (h : j ≠ i) :
    bucketDropCount (noteBucketDropped s i) j = bucketDropCount s j := by
  have h2 : ¬ (i = j) := fun hh => h hh.symm
  induction s with
  | nil => simp [noteBucketDropped, bucketDropCount, h2]
  | cons kv rest ih =>
      obtain ⟨a, n⟩ := kv
      by_cases ha : a = i
      · subst ha
        simp [noteBucketDropped, bucketDropCount, h2]
      · by_cases haj : a = j <;>
          simp [noteBucketDropped, bucketDropCount, ha, haj, ih, h]

/-! ### Claim C7 -/

/-- C7: for every producer state and registry state, `dropDataLocked` and
`clearPastBucketsLocked` leave identical producer states (both the raw buffer
and the grouped map emptied; neither writes any output, as their signatures
show), and they differ only in the registry: drop bumps the drop counter of
this metric's identifier by exactly one and leaves every other identifier's
counter unchanged, while clear does not touch the registry at all. -/
theorem drop_vs_clear (p : EventMetricProducer) (stats : StatsdStatsReg) :
    (dropDataLocked p stats).1 = clearPastBucketsLocked p ∧
    (clearPastBucketsLocked p).proto = [] ∧
    (clearPastBucketsLocked p).aggregatedAtoms = [] ∧
    bucketDropCount (dropDataLocked p stats).2 p.metricId =
      bucketDropCount stats p.metricId + 1 ∧
    (∀ j, j ≠ p.metricId →
      bucketDropCount (dropDataLocked p stats).2 j = bucketDropCount stats j) := by
  refine ⟨rfl, rfl, rfl, ?_, ?_⟩
  · exact bucketDropCount_note_self stats p.metricId
  · intro j hj
    exact bucketDropCount_note_other stats p.metricId j hj

/-- Witness for C7 on a concrete producer and registry: the drop counter of
metric 7 goes from 2 to 3 while metric 3's counter is unchanged, and the
cleared states agree. -/
theorem drop_vs_clear_witness :
    (dropDataLocked (newEventMetricProducer 7 false) [(7, 2)]).1 =
      clearPastBucketsLocked (newEventMetricProducer 7 false) ∧
    bucketDropCount
      (dropDataLocked (newEventMetricProducer 7 false) [(7, 2)]).2 7 = 3 ∧
    bucketDropCount
      (dropDataLocked (newEventMetricProducer 7 false) [(7, 2)]).2 3 =
      bucketDropCount [(7, 2)] 3 := by
  have h := drop_vs_clear (newEventMetricProducer 7 false) [(7, 2)]
  exact ⟨h.1, h.2.2.2.1.trans (by decide), h.2.2.2.2 3 (by decide)⟩

/-! ### Claim C8 -/

lemma byteSize_foldl (m : List (AtomDimensionKey × List Int)) (n : Nat) :
    m.foldl
      (fun totalSize kv =>
        totalSize + sizeofFieldValue * kv.1.atomFieldValues.values.length
          + sizeofInt64 * kv.2.length) n =
    n + (m.map (fun kv =>
      kv.1.atomFieldValues.values.length * sizeofFieldValue +
      kv.2.length * sizeofInt64)).sum := by
  induction m generalizing n with
  | nil => simp
  | cons kv rest ih =>
      simp only [List.foldl_cons, List.map_cons, List.sum_cons]
      rw [ih]
      ring

lemma byteSizeLocked_grouped (p : EventMetricProducer)
    (h : p.useAtomAggregation = true) :
    byteSizeLocked p =
      (p.aggregatedAtoms.map (fun kv =>
        kv.1.atomFieldValues.values.length * sizeofFieldValue +
        kv.2.length * sizeofInt64)).sum := by
  simp only [byteSizeLocked, h, if_true]
  rw [byteSize_foldl]
  simp

lemma byteSizeLocked_raw (p : EventMetricProducer)
    (h : p.useAtomAggregation = false) :
    byteSizeLocked p = pvsSize p.proto := by
  simp [byteSizeLocked, h]

/-- C8: the byte-size estimate is, in grouped mode, the sum over all map
entries of the key's field-value count times the fixed per-field-value cost
`sizeof(FieldValue)` plus the entry's timestamp count times 8 bytes; in raw
mode it is exactly the byte count committed to the pending serialization
buffer. -/
theorem byteSize_formula (p : EventMetricProducer) :
    byteSizeLocked p =
      if p.useAtomAggregation then
        (p.aggregatedAtoms.map (fun kv =>
          kv.1.atomFieldValues.values.length * sizeofFieldValue +
          kv.2.length * 8)).sum
      else pvsSize p.proto := by
  by_cases h : p.useAtomAggregation
  · rw [byteSizeLocked_grouped p h]
    simp [h, sizeofInt64]
  · rw [byteSizeLocked_raw p (by simpa using h)]
    simp [h]

/-! ### Claim C9 -/

lemma byteSum_appendTs (m : List (AtomDimensionKey × List Int))
    (k : AtomDimensionKey) (t : Int) :
    ((appendTs m k t).map (fun kv =>
        kv.1.atomFieldValues.values.length * sizeofFieldValue +
        kv.2.length * sizeofInt64)).sum =
      (m.map (fun kv =>
        kv.1.atomFieldValues.values.length * sizeofFieldValue +
        kv.2.length * sizeofInt64)).sum +
      (if lookupTs m k = none then
        k.atomFieldValues.values.length * sizeofFieldValue else 0) +
      sizeofInt64 := by
  induction m with
  | nil => simp [appendTs, lookupTs]
  | cons kv rest ih =>
      obtain ⟨k1, ts⟩ := kv
      by_cases h : k1 = k
      · subst h
        simp only [appendTs, if_pos rfl, lookupTs, List.map_cons,
          List.sum_cons]
        simp [Nat.mul_add, Nat.mul_comm]
        ring
      · simp only [appendTs, if_neg h, lookupTs, List.map_cons,
          List.sum_cons]
        rw [ih]
        by_cases h2 : lookupTs rest k = none <;> simp [h2] <;> ring

/-- C9: the byte-size estimate strictly increases after every accepted intake
(so in particular it never decreases, satisfying the claim's allowance of
equality for a duplicate-key grouped append), and it is 0 after a clear,
after a drop, and after a dump with erase set. -/
theorem byteSize_monotone_reset (tr : LogEvent → Int)
    (enc : LogEvent → List PV) (wfvt : Int → List FieldValue → List PV)
    (act : Bool) (stats : StatsdStatsReg) (p : EventMetricProducer)
    (e : LogEvent) :
    byteSizeLocked p <
      byteSizeLocked (onMatchedLogEventInternalLocked tr enc p true e) ∧
    byteSizeLocked (clearPastBucketsLocked p) = 0 ∧
    byteSizeLocked (dropDataLocked p stats).1 = 0 ∧
    byteSizeLocked ((onDumpReportLocked wfvt act true p).2) = 0 := by
  refine ⟨?_, ?_, ?_, ?_⟩
  · cases hm : p.useAtomAggregation with
    | false =>
        rw [onMatched_true_raw tr enc p e hm]
        rw [byteSizeLocked_raw p hm, byteSizeLocked_raw _ (by simpa using hm)]
        simp only [pvsSize_append]
        have := pvSize_pos (rawBlock tr enc e)
        simp only [pvsSize_cons, pvsSize_nil]
        omega
    | true =>
        rw [onMatched_true_grouped tr enc p e hm]
        rw [byteSizeLocked_grouped p hm,
            byteSizeLocked_grouped _ (by simpa using hm)]
        simp only []
        rw [byteSum_appendTs]
        have hpos : 0 < sizeofInt64 := by simp [sizeofInt64]
        omega
  · cases hm : p.useAtomAggregation <;>
      simp [byteSizeLocked, clearPastBucketsLocked, hm]
  · cases hm : p.useAtomAggregation <;>
      simp [byteSizeLocked, dropDataLocked, hm]
  · cases hm : p.useAtomAggregation with
    | false =>
        by_cases hg : pvsSize p.proto ≤ 0
        · simp [onDumpReportLocked, byteSizeLocked, hm, hg]
          omega
        · simp [onDumpReportLocked, byteSizeLocked, hm, hg]
    | true =>
        simp [onDumpReportLocked, byteSizeLocked, hm]

/-! ### Claim C10 -/

/-- C10: a dump with erase off leaves the producer state — in particular the
raw pending buffer and the grouped map — unchanged, and a second erase-off
dump with no intervening intake, drop or clear writes an identical node
sequence to its output stream. -/
theorem dump_noErase_frame (wfvt : Int → List FieldValue → List PV)
    (act : Bool) (p : EventMetricProducer) :
    (onDumpReportLocked wfvt act false p).2 = p ∧
    (onDumpReportLocked wfvt act false
        ((onDumpReportLocked wfvt act false p).2)).1 =
      (onDumpReportLocked wfvt act false p).1 := by
  have h2 : (onDumpReportLocked wfvt act false p).2 = p := by
    by_cases hm : p.useAtomAggregation = false
    · by_cases hg : pvsSize p.proto ≤ 0 <;>
        simp [onDumpReportLocked, hm, hg]
    · simp [onDumpReportLocked, hm]
  exact ⟨h2, by rw [h2]⟩

end Statsd
